import Mathlib

/-!
Shallow embedding of the selector-inference core of the site2context repository
(src/html2md/config.py and the variant in generate_config.py).

Scores are modelled as rationals; Python dict aggregation is modelled as an
insertion-ordered association list; Python sets are modelled as finsets; a file
that fails to read is modelled as a missing (none) page.
-/

set_option allowUnsafeReducibility true in
attribute [semireducible] Rat.add Rat.mul Rat.inv Rat.div

namespace Html2Md

/-- DOM element view: tag name, role attribute, class list, stripped text, and
the descendant counts the metric computation reads (paragraphs, headings,
links, images, lists). -/
structure Elem where
  name : String
  role : Option String
  classes : List String
  text : String
  paragraphs : Nat
  headings : Nat
  links : Nat
  images : Nat
  lists : Nat
deriving DecidableEq

/-- Lower-casing of a string, as used for class-indicator matching. -/
def lowerStr (s : String) : String := String.mk (s.toList.map Char.toLower)

/-- Occurrence of one character list inside another, at any position. -/
def subList : List Char → List Char → Bool
  | needle, [] => needle.isEmpty
  | needle, c :: t => needle.isPrefixOf (c :: t) || subList needle t

/-- Substring containment test, Python needle in hay. -/
def containsSub (hay needle : String) : Bool := subList needle.toList hay.toList

/-- Content metrics computed by analyze_element_content. -/
structure Metrics where
  text_length : ℚ
  content_density : ℚ
  content_diversity : ℚ
  total_elements : Nat
deriving DecidableEq

/-- Embedding of analyze_element_content. -/
def analyze_element_content (e : Elem) : Metrics :=
  let text_length : ℚ := (e.text.length : ℚ)
  let total : Nat := e.paragraphs + e.headings + e.links + e.images + e.lists
  let content_density : ℚ := if total = 0 then 0 else text_length / (total : ℚ)
  let non_zero_types : Nat :=
    (([e.paragraphs, e.headings, e.links, e.images, e.lists]).filter
      (fun c => decide (0 < c))).length
  ⟨text_length, content_density, (non_zero_types : ℚ) / 5, total⟩

/-- The fixed content class indicator table, in its Python insertion order. -/
def content_class_indicators : List (String × ℚ) :=
  [("content", 2), ("main", 2), ("article", 3/2), ("container", 1), ("section", 1/2)]

/-- Raw class score: the double loop over classes and indicators. -/
def class_score (classes : List String) : ℚ :=
  classes.foldl (fun acc cls => content_class_indicators.foldl
    (fun acc2 ip => if containsSub (lowerStr cls) ip.1 then acc2 + ip.2 else acc2) acc) 0

/-- Class bonus: raw class score capped at 3 points. -/
def class_bonus (classes : List String) : ℚ := min (class_score classes) 3

/-- Tag-semantic bonus of the scorer. -/
def tag_bonus (name : String) (role : Option String) : ℚ :=
  if name = "main" then 3 + (if role = some "main" then 2 else 0)
  else if name = "article" then 2
  else if name = "section" then 1
  else 0

/-- Full element score: length, diversity and density components plus the tag
and class bonuses. -/
def score_element (e : Elem) : ℚ :=
  let m := analyze_element_content e
  min (m.text_length / 1000) 5 + m.content_diversity * 3 + min (m.content_density / 100) 2
    + tag_bonus e.name e.role + class_bonus e.classes

/-- Whether a class matches any content class indicator (substring,
lower-cased). -/
def matchesAnyIndicator (cls : String) : Bool :=
  content_class_indicators.any (fun ip => containsSub (lowerStr cls) ip.1)

/-- Python truthiness of the role attribute value. -/
def roleTruthy : Option String → Bool
  | some r => r != ""
  | none => false

/-- Selector string synthesis from the code: tag, then a role attribute part
when the role value is truthy, then the class part derived from the classes
matching an indicator. -/
def build_selector (e : Elem) : String :=
  let base :=
    if roleTruthy e.role then e.name ++ "[role=\"" ++ e.role.getD "" ++ "\"]" else e.name
  match e.classes.filter matchesAnyIndicator with
  | [] => base
  | [c] => base ++ "." ++ c
  | c :: _ :: _ => base ++ "[class*=\"" ++ c ++ "\"]"

/-- The minimum-text gate of the scorer: skip empty or tiny elements. -/
def qualifies (e : Elem) : Bool := !(e.text == "" || decide (e.text.length < 50))

/-- Container tag set scanned for content candidates. -/
def container_tags : List String := ["main", "article", "section", "div"]

/-- Per-page raw candidate list: one pair per qualifying container element, in
document order. -/
def raw_candidates (page : List Elem) : List (String × ℚ) :=
  ((page.filter (fun e => container_tags.contains e.name)).filter qualifies).map
    (fun e => (build_selector e, score_element e))

/-- Descending order on candidate scores. -/
def scoreDesc (a b : String × ℚ) : Prop := b.2 ≤ a.2

instance : DecidableRel scoreDesc := fun a b => inferInstanceAs (Decidable (b.2 ≤ a.2))

instance : IsTotal (String × ℚ) scoreDesc := ⟨fun a b => le_total b.2 a.2⟩

instance : IsTrans (String × ℚ) scoreDesc :=
  ⟨fun _ _ _ h1 h2 => le_trans h2 h1⟩

/-- Stable descending sort by score, the embedding of Python sorted with
reverse order on the score key. -/
def sortDesc (l : List (String × ℚ)) : List (String × ℚ) := l.insertionSort scoreDesc

/-- Deduplication keeping the first occurrence of each selector string. -/
def dedupeFirst (seen : List String) : List (String × ℚ) → List (String × ℚ)
  | [] => []
  | p :: t => if p.1 ∈ seen then dedupeFirst seen t else p :: dedupeFirst (p.1 :: seen) t

/-- Embedding of extract_content_selectors: score the qualifying containers,
sort descending, drop duplicate selectors keeping first occurrences. -/
def extract_content_selectors (page : List Elem) : List (String × ℚ) :=
  dedupeFirst [] (sortDesc (raw_candidates page))

/-- Boilerplate tag list of the main detector. -/
def boilerplate_elements : List String :=
  ["header", "footer", "nav", "script", "style", "noscript",
   "iframe", "form", "button", "input", "select"]

/-- Boilerplate class indicator list of the main detector. -/
def boilerplate_class_indicators : List String :=
  ["navbar", "nav-item", "btn", "footer", "banner", "slidecontainer", "ratio"]

/-- Whether a class matches a boilerplate indicator (substring, lower-cased). -/
def isBoilerplateClass (cls : String) : Bool :=
  boilerplate_class_indicators.any (fun ind => containsSub (lowerStr cls) ind)

/-- Boilerplate class set of one page, main detector. -/
def extract_boilerplate_classes (page : List Elem) : Finset String :=
  page.foldl (fun acc e => acc ∪ (e.classes.filter isBoilerplateClass).toFinset) ∅

/-- Boilerplate tag set of one page, main detector. -/
def extract_boilerplate_elements (page : List Elem) : Finset String :=
  ((page.filter (fun e => boilerplate_elements.contains e.name)).map
    (fun e => e.name)).toFinset

/-- Larger boilerplate class list of the variant detector in
generate_config.py. -/
def big_boilerplate_classes : List String :=
  ["header", "footer", "nav", "navigation", "menu", "sidebar", "advertisement", "ad",
   "social", "share", "comment", "form", "search", "login", "signup", "button", "btn",
   "modal", "popup", "cookie", "banner", "alert", "notification"]

/-- Whether a class contains a larger-list indicator as a lower-cased
substring; this is the condition the claim attributes to the variant. -/
def bigIndicatorMatch (cls : String) : Bool :=
  big_boilerplate_classes.any (fun ind => containsSub (lowerStr cls) ind)

/-- Every class occurring on a page. -/
def all_page_classes (page : List Elem) : Finset String :=
  page.foldl (fun acc e => acc ∪ e.classes.toFinset) ∅

/-- Variant boilerplate class detector of generate_config.py: the set of page
classes intersected, by exact membership, with the larger list. -/
def variant_boilerplate_classes (page : List Elem) : Finset String :=
  (all_page_classes page).filter (fun c => c ∈ big_boilerplate_classes)

/-- Accumulator state built while scanning the corpus. -/
structure Aggregate where
  content : List (String × ℚ)
  bp_elements : Finset String
  bp_classes : Finset String
deriving DecidableEq

/-- Initial accumulator state. -/
def init_aggregate : Aggregate := ⟨[], ∅, ∅⟩

/-- Processing of one file: a file that failed to read contributes nothing;
a parsed page extends the candidate list and both boilerplate sets. -/
def process_file (st : Aggregate) (file : Option (List Elem)) : Aggregate :=
  match file with
  | none => st
  | some page =>
    ⟨st.content ++ extract_content_selectors page,
     st.bp_elements ∪ extract_boilerplate_elements page,
     st.bp_classes ∪ extract_boilerplate_classes page⟩

/-- Sequential scan over all files of the corpus. -/
def scan_files (files : List (Option (List Elem))) : Aggregate :=
  files.foldl process_file init_aggregate

/-- One dict-update step of the aggregation: existing key takes the max of old
and new score in place, new key is appended. -/
def insertMax (acc : List (String × ℚ)) (p : String × ℚ) : List (String × ℚ) :=
  if acc.any (fun q => q.1 == p.1) then
    acc.map (fun q => if q.1 == p.1 then (q.1, max q.2 p.2) else q)
  else acc ++ [p]

/-- Folding a result list into the selector-score mapping. -/
def fold_scores (acc : List (String × ℚ)) (results : List (String × ℚ)) :
    List (String × ℚ) :=
  results.foldl insertMax acc

/-- Top selectors: aggregated scores strictly above 5, sorted descending. -/
def top_selectors (scores : List (String × ℚ)) : List (String × ℚ) :=
  sortDesc (scores.filter (fun p => decide (5 < p.2)))

/-- Analysis result record of analyze_html_files. -/
structure Analysis where
  content_selectors : List String
  bp_elements : Finset String
  bp_classes : Finset String
deriving DecidableEq

/-- Embedding of analyze_html_files: scan the corpus, aggregate scores using
max, keep the selectors scoring above 5 sorted descending. -/
def analyze_html_files (files : List (Option (List Elem))) : Analysis :=
  let agg := scan_files files
  let scores := fold_scores [] agg.content
  ⟨(top_selectors scores).map (fun p => p.1), agg.bp_elements, agg.bp_classes⟩

/-- Content selector emitted by generate_config: comma-and-space join of the
top three ranked selectors. -/
def content_selector (files : List (Option (List Elem))) : String :=
  String.intercalate ", " ((analyze_html_files files).content_selectors.take 3)

/-- Exclusion list emitted by generate_config: sorted tag names followed by
sorted dotted class selectors. -/
def exclude_selectors (files : List (Option (List Elem))) : List String :=
  let a := analyze_html_files files
  (a.bp_elements.sort (fun x y => x ≤ y)) ++
    ((a.bp_classes.image (fun c => "." ++ c)).sort (fun x y => x ≤ y))

/-- Content selector as the claim words it: among aggregated selectors sorted
descending, those scoring strictly above 5, top three, joined. -/
def spec_content_selector (files : List (Option (List Elem))) : String :=
  let scores := fold_scores [] (scan_files files).content
  String.intercalate ", "
    ((((sortDesc scores).filter (fun p => decide (5 < p.2))).map (fun p => p.1)).take 3)

/-- Exclusion list as the claim words it: one single lexicographically sorted
list over all synthesized selector strings. -/
def spec_exclude_selectors (files : List (Option (List Elem))) : List String :=
  let a := analyze_html_files files
  (a.bp_elements ∪ a.bp_classes.image (fun c => "." ++ c)).sort (fun x y => x ≤ y)

/-- Selector synthesis as the claim words it: a role attribute part whenever a
role attribute is present, also when its value is empty. -/
def claim_selector (e : Elem) : String :=
  let base :=
    match e.role with
    | some r => e.name ++ "[role=\"" ++ r ++ "\"]"
    | none => e.name
  match e.classes.filter matchesAnyIndicator with
  | [] => base
  | [c] => base ++ "." ++ c
  | c :: _ :: _ => base ++ "[class*=\"" ++ c ++ "\"]"

/-- Selector synthesis as amended: a role attribute part exactly when a role
attribute is present with a non-empty value. -/
def amended_selector (e : Elem) : String :=
  let base :=
    match e.role with
    | some r => if r = "" then e.name else e.name ++ "[role=\"" ++ r ++ "\"]"
    | none => e.name
  match e.classes.filter matchesAnyIndicator with
  | [] => base
  | [c] => base ++ "." ++ c
  | c :: _ :: _ => base ++ "[class*=\"" ++ c ++ "\"]"

/-- Class bonus as the claim words it: the sum over all classes of the points
of every indicator contained in the lower-cased class, before clamping. -/
def spec_class_raw (classes : List String) : ℚ :=
  (classes.map (fun cls =>
    ((content_class_indicators.filter
      (fun ip => containsSub (lowerStr cls) ip.1)).map (fun ip => ip.2)).sum)).sum

/-- Scores paired with a given selector string in a result list. -/
def valuesOf (l : List (String × ℚ)) (s : String) : List ℚ :=
  (l.filter (fun p => p.1 == s)).map (fun p => p.2)

/-- Maximum score observed for a selector string, none when unobserved. -/
def maxScore (l : List (String × ℚ)) (s : String) : Option ℚ :=
  match valuesOf l s with
  | [] => none
  | v :: vs => some (vs.foldl max v)

/-- Running maximum of a score list on top of an optional start value. -/
def mergeMax : Option ℚ → List ℚ → Option ℚ
  | o, [] => o
  | none, v :: vs => mergeMax (some v) vs
  | some w, v :: vs => mergeMax (some (max w v)) vs

/-- Sixty characters of text, above the fifty-character gate. -/
def exampleText60 : String := String.mk (List.replicate 60 'a')

/-- One hundred characters of text. -/
def exampleText100 : String := String.mk (List.replicate 100 'a')

/-- A qualifying div with one article class and sixty characters. -/
def exampleDivA : Elem := ⟨"div", none, ["article"], exampleText60, 0, 0, 0, 0, 0⟩

/-- A qualifying div with one article class and one hundred characters. -/
def exampleDivB : Elem := ⟨"div", none, ["article"], exampleText100, 0, 0, 0, 0, 0⟩

/-- An empty div, below the text gate. -/
def exampleTinyDiv : Elem := ⟨"div", none, [], "", 0, 0, 0, 0, 0⟩

/-- A qualifying div whose role attribute is present but empty. -/
def exampleRoleElem : Elem := ⟨"div", some "", [], exampleText60, 0, 0, 0, 0, 0⟩

/-- A qualifying div with two indicator-matching classes. -/
def exampleDivCM : Elem := ⟨"div", none, ["content", "main"], exampleText60, 0, 0, 0, 0, 0⟩

/-- A page with two same-selector candidates of different scores and one
skipped element. -/
def examplePageA : List Elem := [exampleDivA, exampleDivB, exampleTinyDiv]

/-- A page holding a footer element with a btn class. -/
def exampleBpPage : List Elem := [⟨"footer", none, ["btn"], "", 0, 0, 0, 0, 0⟩]

/-- A one-file corpus built from the footer page. -/
def exampleBpFiles : List (Option (List Elem)) := [some exampleBpPage]

/-- A page holding a div with a navbar class. -/
def exampleNavPage : List Elem := [⟨"div", none, ["navbar"], "", 0, 0, 0, 0, 0⟩]

/-- The text gate holds exactly for elements with at least fifty characters of
stripped text. -/
theorem qualifies_iff (e : Elem) : qualifies e = true ↔ 50 ≤ e.text.length := by
  unfold qualifies
  simp only [Bool.not_eq_eq_eq_not, Bool.not_true, Bool.or_eq_false_iff,
    beq_eq_false_iff_ne, ne_eq, decide_eq_false_iff_not, Nat.not_lt]
  constructor
  · intro h
    exact h.2
  · intro h
    refine ⟨?_, h⟩
    intro h0
    rw [h0] at h
    simp at h

/-- Folding conditional addition over a list accumulates the filtered sum. -/
theorem foldl_cond_add (c : String × ℚ → Bool) (l : List (String × ℚ)) (acc : ℚ) :
    l.foldl (fun a ip => if c ip then a + ip.2 else a) acc
      = acc + ((l.filter c).map (fun ip => ip.2)).sum := by
  induction l generalizing acc with
  | nil => simp
  | cons x t ih =>
    by_cases h : c x <;> simp [h, ih, add_assoc]

/-- The outer class loop accumulates the per-class filtered sums. -/
theorem class_score_aux (classes : List String) (acc : ℚ) :
    classes.foldl (fun a cls => content_class_indicators.foldl
        (fun a2 ip => if containsSub (lowerStr cls) ip.1 then a2 + ip.2 else a2) a) acc
      = acc + spec_class_raw classes := by
  induction classes generalizing acc with
  | nil => simp [spec_class_raw]
  | cons cls t ih =>
    simp only [List.foldl_cons]
    rw [foldl_cond_add, ih]
    simp [spec_class_raw, add_assoc]

/-- The double indicator loop computes the per-class filtered sums. -/
theorem class_score_eq_spec (classes : List String) :
    class_score classes = spec_class_raw classes := by
  unfold class_score
  rw [class_score_aux, zero_add]

/-- C5: the tag-semantic bonus is exactly +3 for tag main plus an additional
+2 when the role attribute equals "main" (so main with role "main" receives
exactly 5 from this component), +2 for article, +1 for section, +0 for div. -/
theorem C5_tag_bonus :
    (∀ role : Option String,
      tag_bonus "main" role = 3 + (if role = some "main" then 2 else 0)
        ∧ tag_bonus "article" role = 2
        ∧ tag_bonus "section" role = 1
        ∧ tag_bonus "div" role = 0)
    ∧ tag_bonus "main" (some "main") = 5 := by
  refine ⟨fun role => ⟨rfl, rfl, rfl, rfl⟩, by decide⟩

/-- C6: the class-semantic bonus is the sum, over every class and every
indicator contained in the lower-cased class, of the indicator points, clamped
at 3; the classes content, main-container and article-body earn exactly 3. -/
theorem C6_class_bonus :
    (∀ classes : List String, class_bonus classes = min (spec_class_raw classes) 3)
    ∧ class_bonus ["content", "main-container", "article-body"] = 3 := by
  refine ⟨fun classes => ?_, by decide⟩
  unfold class_bonus
  rw [class_score_eq_spec]

/-- C9: a failed file leaves the aggregate state unchanged and the scan of the
remaining files proceeds exactly as if the failing file were absent. -/
theorem C9_failure_atomicity :
    (∀ st : Aggregate, process_file st none = st)
    ∧ (∀ l1 l2 : List (Option (List Elem)),
        scan_files (l1 ++ none :: l2) = scan_files (l1 ++ l2))
    ∧ (∀ l1 l2 : List (Option (List Elem)),
        analyze_html_files (l1 ++ none :: l2) = analyze_html_files (l1 ++ l2)) := by
  have h1 : ∀ st : Aggregate, process_file st none = st := fun st => rfl
  have h2 : ∀ l1 l2 : List (Option (List Elem)),
      scan_files (l1 ++ none :: l2) = scan_files (l1 ++ l2) := by
    intro l1 l2
    unfold scan_files
    rw [List.foldl_append, List.foldl_append, List.foldl_cons, h1]
  exact ⟨h1, h2, fun l1 l2 => by unfold analyze_html_files; rw [h2]⟩

/-- C2 fails as stated: with tag footer and class btn the emitted list is
footer before .btn, which is not one lexicographically sorted list. -/
theorem C2_counterexample :
    exclude_selectors exampleBpFiles = ["footer", ".btn"]
    ∧ spec_exclude_selectors exampleBpFiles = [".btn", "footer"]
    ∧ exclude_selectors exampleBpFiles ≠ spec_exclude_selectors exampleBpFiles := by
  have hel : (analyze_html_files exampleBpFiles).bp_elements = {"footer"} := by decide
  have hcl : (analyze_html_files exampleBpFiles).bp_classes = {"btn"} := by decide
  have h1 : exclude_selectors exampleBpFiles = ["footer", ".btn"] := by
    unfold exclude_selectors
    dsimp only
    rw [hel, hcl, Finset.image_singleton, Finset.sort_singleton, Finset.sort_singleton]
    rfl
  have hins : ({"footer"} : Finset String) ∪ {"." ++ "btn"} =
      insert ".btn" {"footer"} := by decide
  have h2 : spec_exclude_selectors exampleBpFiles = [".btn", "footer"] := by
    unfold spec_exclude_selectors
    dsimp only
    rw [hel, hcl, Finset.image_singleton, hins, Finset.sort_insert, Finset.sort_singleton]
    · intro b hb
      rw [Finset.mem_singleton] at hb
      subst hb
      rw [String.le_iff_toList_le]
      decide
    · decide
  refine ⟨h1, h2, ?_⟩
  rw [h1, h2]
  decide

/-- C2 amended: the emitted exclusion list is the lexicographically sorted
list of boilerplate tag names followed by the lexicographically sorted list of
dotted class selectors; each group is sorted separately, not the whole list. -/
theorem C2_amended_grouped (files : List (Option (List Elem))) :
    ∃ l1 l2 : List String,
      exclude_selectors files = l1 ++ l2
        ∧ l1.Sorted (fun x y => x ≤ y)
        ∧ l2.Sorted (fun x y => x ≤ y)
        ∧ l1.toFinset = (analyze_html_files files).bp_elements
        ∧ l2.toFinset =
            (analyze_html_files files).bp_classes.image (fun c => "." ++ c) :=
  ⟨_, _, rfl, Finset.sort_sorted _ _, Finset.sort_sorted _ _,
    Finset.sort_toFinset _ _, Finset.sort_toFinset _ _⟩

/-- Membership in a left fold of finset unions over a page. -/
theorem mem_foldl_union (f : Elem → Finset String) (page : List Elem)
    (acc : Finset String) (x : String) :
    x ∈ page.foldl (fun a e => a ∪ f e) acc ↔ x ∈ acc ∨ ∃ e ∈ page, x ∈ f e := by
  induction page generalizing acc with
  | nil => simp
  | cons p t ih =>
    rw [List.foldl_cons, ih]
    simp [or_assoc]

/-- C8 fails as stated for the variant detector: the class navbar contains the
indicator nav of the larger list, yet the variant does not collect it, because
the variant intersects by exact membership rather than substring. -/
theorem C8_counterexample :
    "navbar" ∉ variant_boilerplate_classes exampleNavPage
    ∧ (∃ e ∈ exampleNavPage, "navbar" ∈ e.classes)
    ∧ bigIndicatorMatch "navbar" = true := by
  refine ⟨by decide, by decide, by decide⟩

/-- C8 amended: the main detector collects a class exactly when the
lower-cased class contains one of its indicator substrings, while the variant
collects a class exactly when the class, unchanged, is a member of the larger
list. -/
theorem C8_amended_detectors (page : List Elem) (cls : String) :
    (cls ∈ extract_boilerplate_classes page
      ↔ (∃ e ∈ page, cls ∈ e.classes) ∧ isBoilerplateClass cls = true)
    ∧ (cls ∈ variant_boilerplate_classes page
      ↔ (∃ e ∈ page, cls ∈ e.classes) ∧ cls ∈ big_boilerplate_classes) := by
  constructor
  · unfold extract_boilerplate_classes
    rw [mem_foldl_union]
    simp only [Finset.not_mem_empty, false_or, List.mem_toFinset, List.mem_filter]
    constructor
    · rintro ⟨e, he, hc, hb⟩
      exact ⟨⟨e, he, hc⟩, hb⟩
    · rintro ⟨⟨e, he, hc⟩, hb⟩
      exact ⟨e, he, hc, hb⟩
  · unfold variant_boilerplate_classes all_page_classes
    rw [Finset.mem_filter, mem_foldl_union]
    simp [List.mem_toFinset]

/-- Witness instantiating the amended C8 on the footer page. -/
theorem C8_witness : "btn" ∈ extract_boilerplate_classes exampleBpPage :=
  ((C8_amended_detectors exampleBpPage "btn").1).mpr ⟨by decide, by decide⟩

/-- C7 fails as stated: a qualifying div whose role attribute is present with
an empty value synthesizes the bare selector div, while the claim prescribes a
role attribute part for every present role attribute. -/
theorem C7_counterexample :
    qualifies exampleRoleElem = true
    ∧ container_tags.contains exampleRoleElem.name = true
    ∧ build_selector exampleRoleElem = "div"
    ∧ claim_selector exampleRoleElem = "div[role=\"\"]"
    ∧ build_selector exampleRoleElem ≠ claim_selector exampleRoleElem := by
  refine ⟨by decide, by decide, by decide, by decide, by decide⟩

/-- C7 amended: the synthesized selector is the tag name, a role attribute
part exactly when a role attribute is present with a non-empty value, then the
class part: dot plus the class when exactly one class matches an indicator, a
class-contains part with the first matching class when several match, nothing
further when none match; the two worked examples of the claim hold. -/
theorem C7_amended_selector :
    (∀ e : Elem, build_selector e = amended_selector e)
    ∧ build_selector exampleDivA = "div.article"
    ∧ build_selector exampleDivCM = "div[class*=\"content\"]" := by
  refine ⟨fun e => ?_, by decide, by decide⟩
  obtain ⟨n, ro, cs, tx, a, b, c, d, f⟩ := e
  unfold build_selector amended_selector roleTruthy
  cases ro with
  | none => rfl
  | some r =>
    by_cases h : r = "" <;> simp [h]

/-- Lookup on a cons cell, stated with a propositional if. -/
theorem lookup_cons_ite (k : String) (v : ℚ) (t : List (String × ℚ)) (s : String) :
    ((k, v) :: t).lookup s = if s = k then some v else t.lookup s := by
  rw [List.lookup_cons]
  by_cases h : s = k
  · subst h
    simp
  · rw [show (s == k) = false from beq_eq_false_iff_ne.mpr h]
    simp [h]

/-- The existence test of insertMax agrees with lookup success. -/
theorem any_key_iff (acc : List (String × ℚ)) (k : String) :
    acc.any (fun q => q.1 == k) = true ↔ ∃ q ∈ acc, q.1 = k := by
  simp [List.any_eq_true]

/-- Lookup through the in-place max update of insertMax. -/
theorem lookup_map_max (acc : List (String × ℚ)) (p : String × ℚ) (s : String) :
    (acc.map (fun q => if q.1 == p.1 then (q.1, max q.2 p.2) else q)).lookup s =
      if s = p.1 then (acc.lookup s).map (fun w => max w p.2) else acc.lookup s := by
  induction acc with
  | nil =>
    simp only [List.map_nil, List.lookup_nil, Option.map_none']
    split <;> rfl
  | cons q t ih =>
    obtain ⟨k, v⟩ := q
    by_cases h1 : k = p.1 <;> by_cases h2 : s = k <;>
      simp only [List.map_cons, beq_iff_eq, h1, h2, if_true, if_false, ite_true, ite_false,
        lookup_cons_ite, ih, Option.map_some'] <;>
      simp_all [lookup_cons_ite]

/-- Lookup through appending one fresh pair. -/
theorem lookup_append_single (acc : List (String × ℚ)) (p : String × ℚ) (s : String) :
    (acc ++ [p]).lookup s =
      match acc.lookup s with
      | some w => some w
      | none => if s = p.1 then some p.2 else none := by
  induction acc with
  | nil =>
    obtain ⟨k, v⟩ := p
    simp [lookup_cons_ite]
  | cons q t ih =>
    obtain ⟨k, v⟩ := q
    by_cases h : s = k <;> simp [lookup_cons_ite, h, ih]

/-- Lookup succeeds exactly when the key occurs in the association list. -/
theorem lookup_isSome_iff (acc : List (String × ℚ)) (k : String) :
    (acc.lookup k).isSome = true ↔ ∃ q ∈ acc, q.1 = k := by
  induction acc with
  | nil => simp
  | cons q t ih =>
    obtain ⟨k1, v⟩ := q
    by_cases h : k = k1 <;> simp [lookup_cons_ite, h, ih, eq_comm]

/-- Lookup after one insertMax step: the stored score becomes the max of the
old score, when any, and the new one. -/
theorem lookup_insertMax (acc : List (String × ℚ)) (p : String × ℚ) (s : String) :
    (insertMax acc p).lookup s =
      if s = p.1 then
        match acc.lookup s with
        | some w => some (max w p.2)
        | none => some p.2
      else acc.lookup s := by
  unfold insertMax
  by_cases hex : acc.any (fun q => q.1 == p.1) = true
  · rw [if_pos hex, lookup_map_max]
    by_cases hs : s = p.1
    · rw [if_pos hs, if_pos hs]
      have hsome : (acc.lookup s).isSome = true := by
        rw [lookup_isSome_iff, hs]
        exact (any_key_iff acc p.1).mp hex
      obtain ⟨w, hw⟩ := Option.isSome_iff_exists.mp hsome
      rw [hw]
      rfl
    · rw [if_neg hs, if_neg hs]
  · rw [if_neg hex, lookup_append_single]
    by_cases hs : s = p.1
    · rw [if_pos hs]
      have hnone : acc.lookup s = none := by
        rw [← Option.not_isSome_iff_eq_none, lookup_isSome_iff, hs]
        intro hcon
        exact hex ((any_key_iff acc p.1).mpr hcon)
      rw [hnone]
      simp [hs]
    · rw [if_neg hs]
      cases h : acc.lookup s <;> simp [hs]

/-- Values of a selector through one cons cell. -/
theorem valuesOf_cons (p : String × ℚ) (t : List (String × ℚ)) (s : String) :
    valuesOf (p :: t) s = if p.1 = s then p.2 :: valuesOf t s else valuesOf t s := by
  unfold valuesOf
  by_cases h : p.1 = s <;> simp [List.filter_cons, h]

/-- Running maximum from a definite start value is a left fold of max. -/
theorem mergeMax_some (w : ℚ) (vs : List ℚ) :
    mergeMax (some w) vs = some (vs.foldl max w) := by
  induction vs generalizing w with
  | nil => rfl
  | cons v t ih => simp [mergeMax, ih]

/-- The observed maximum is the running maximum from an empty start. -/
theorem maxScore_eq_mergeMax (l : List (String × ℚ)) (s : String) :
    maxScore l s = mergeMax none (valuesOf l s) := by
  unfold maxScore
  cases h : valuesOf l s with
  | nil => rfl
  | cons v vs => simp [mergeMax, mergeMax_some]

/-- Lookup after folding a result list: the running maximum of the observed
scores on top of the previous binding. -/
theorem lookup_fold_scores (l acc : List (String × ℚ)) (s : String) :
    (fold_scores acc l).lookup s = mergeMax (acc.lookup s) (valuesOf l s) := by
  induction l generalizing acc with
  | nil => cases h : acc.lookup s <;> simp [fold_scores, valuesOf, mergeMax, h]
  | cons p t ih =>
    rw [show fold_scores acc (p :: t) = fold_scores (insertMax acc p) t from rfl, ih,
      lookup_insertMax, valuesOf_cons]
    by_cases h : p.1 = s
    · rw [if_pos h, if_pos h.symm]
      cases hl : acc.lookup s with
      | none => simp [mergeMax]
      | some w => simp [mergeMax]
    · rw [if_neg h, if_neg (fun hs => h hs.symm)]

/-- One insertMax makes its own key present with a score at least the
inserted one. -/
theorem insertMax_self_dominates (acc : List (String × ℚ)) (p : String × ℚ) :
    (∃ q ∈ insertMax acc p, q.1 = p.1)
      ∧ ∀ q ∈ insertMax acc p, q.1 = p.1 → p.2 ≤ q.2 := by
  unfold insertMax
  by_cases hex : acc.any (fun q => q.1 == p.1) = true
  · rw [if_pos hex]
    obtain ⟨q0, hq0, hk⟩ := (any_key_iff acc p.1).mp hex
    constructor
    · refine ⟨(q0.1, max q0.2 p.2), List.mem_map.mpr ⟨q0, hq0, ?_⟩, hk⟩
      rw [if_pos (beq_iff_eq.mpr hk)]
    · intro q hq hkey
      obtain ⟨q1, hq1, himg⟩ := List.mem_map.mp hq
      by_cases h1 : q1.1 = p.1
      · rw [if_pos (beq_iff_eq.mpr h1)] at himg
        rw [← himg]
        exact le_max_right _ _
      · rw [if_neg (by simpa using h1)] at himg
        exact absurd (himg ▸ hkey) h1
  · rw [if_neg hex]
    constructor
    · exact ⟨p, List.mem_append.mpr (Or.inr (List.mem_singleton.mpr rfl)), rfl⟩
    · intro q hq hkey
      rcases List.mem_append.mp hq with h | h
      · exact absurd ((any_key_iff acc p.1).mpr ⟨q, h, hkey⟩) hex
      · rw [List.mem_singleton] at h
        subst h
        exact le_refl _

/-- One insertMax of any pair preserves key presence and score lower bounds. -/
theorem insertMax_preserves_dominance (acc : List (String × ℚ)) (r p : String × ℚ)
    (hex : ∃ q ∈ acc, q.1 = p.1) (hub : ∀ q ∈ acc, q.1 = p.1 → p.2 ≤ q.2) :
    (∃ q ∈ insertMax acc r, q.1 = p.1)
      ∧ ∀ q ∈ insertMax acc r, q.1 = p.1 → p.2 ≤ q.2 := by
  unfold insertMax
  by_cases hany : acc.any (fun q => q.1 == r.1) = true
  · rw [if_pos hany]
    obtain ⟨q0, hq0, hk0⟩ := hex
    constructor
    · by_cases h : q0.1 = r.1
      · exact ⟨(q0.1, max q0.2 r.2),
          List.mem_map.mpr ⟨q0, hq0, by rw [if_pos (beq_iff_eq.mpr h)]⟩, hk0⟩
      · exact ⟨q0, List.mem_map.mpr ⟨q0, hq0, by rw [if_neg (by simpa using h)]⟩, hk0⟩
    · intro q hq hkey
      obtain ⟨q1, hq1, himg⟩ := List.mem_map.mp hq
      by_cases h : q1.1 = r.1
      · rw [if_pos (beq_iff_eq.mpr h)] at himg
        have hk1 : q1.1 = p.1 := by
          rw [← himg] at hkey
          exact hkey
        calc p.2 ≤ q1.2 := hub q1 hq1 hk1
          _ ≤ max q1.2 r.2 := le_max_left _ _
          _ = q.2 := by rw [← himg]
      · rw [if_neg (by simpa using h)] at himg
        exact hub q (himg ▸ hq1) hkey
  · rw [if_neg hany]
    obtain ⟨q0, hq0, hk0⟩ := hex
    constructor
    · exact ⟨q0, List.mem_append.mpr (Or.inl hq0), hk0⟩
    · intro q hq hkey
      rcases List.mem_append.mp hq with h | h
      · exact hub q h hkey
      · rw [List.mem_singleton] at h
        subst h
        exact absurd ((any_key_iff acc q.1).mpr ⟨q0, hq0, hk0.trans hkey.symm⟩) hany

/-- Folding a whole result list preserves key presence and score lower
bounds. -/
theorem fold_preserves_dominance (t : List (String × ℚ)) (acc : List (String × ℚ))
    (p : String × ℚ) (hex : ∃ q ∈ acc, q.1 = p.1)
    (hub : ∀ q ∈ acc, q.1 = p.1 → p.2 ≤ q.2) :
    (∃ q ∈ fold_scores acc t, q.1 = p.1)
      ∧ ∀ q ∈ fold_scores acc t, q.1 = p.1 → p.2 ≤ q.2 := by
  induction t generalizing acc with
  | nil => exact ⟨hex, hub⟩
  | cons r t' ih =>
    have h := insertMax_preserves_dominance acc r p hex hub
    exact ih (insertMax acc r) h.1 h.2

/-- After folding a result list, every folded pair is dominated by the
mapping entry of its key. -/
theorem fold_scores_dominates (m l : List (String × ℚ)) (p : String × ℚ)
    (hp : p ∈ l) :
    (∃ q ∈ fold_scores m l, q.1 = p.1)
      ∧ ∀ q ∈ fold_scores m l, q.1 = p.1 → p.2 ≤ q.2 := by
  induction l generalizing m with
  | nil => cases hp
  | cons r t ih =>
    rcases List.mem_cons.mp hp with h | h
    · subst h
      have h0 := insertMax_self_dominates m p
      exact fold_preserves_dominance t (insertMax m p) p h0.1 h0.2
    · exact ih (insertMax m r) h

/-- Inserting a pair already dominated by the mapping changes nothing. -/
theorem insertMax_eq_self (acc : List (String × ℚ)) (p : String × ℚ)
    (hex : ∃ q ∈ acc, q.1 = p.1) (hub : ∀ q ∈ acc, q.1 = p.1 → p.2 ≤ q.2) :
    insertMax acc p = acc := by
  unfold insertMax
  rw [if_pos ((any_key_iff acc p.1).mpr hex)]
  have hcongr : ∀ q ∈ acc, (if q.1 == p.1 then (q.1, max q.2 p.2) else q) = q := by
    intro q hq
    by_cases h : q.1 = p.1
    · rw [if_pos (beq_iff_eq.mpr h), max_eq_left (hub q hq h)]
    · rw [if_neg (by simpa using h)]
  calc acc.map (fun q => if q.1 == p.1 then (q.1, max q.2 p.2) else q)
      = acc.map id := List.map_congr_left hcongr
    _ = acc := List.map_id acc

/-- Folding a result list whose every pair is dominated changes nothing. -/
theorem fold_scores_fixed (l acc : List (String × ℚ))
    (hall : ∀ p ∈ l,
      (∃ q ∈ acc, q.1 = p.1) ∧ ∀ q ∈ acc, q.1 = p.1 → p.2 ≤ q.2) :
    fold_scores acc l = acc := by
  induction l with
  | nil => rfl
  | cons r t ih =>
    have hr := hall r (List.mem_cons_self r t)
    rw [show fold_scores acc (r :: t) = fold_scores (insertMax acc r) t from rfl,
      insertMax_eq_self acc r hr.1 hr.2]
    exact ih fun p hp => hall p (List.mem_cons_of_mem r hp)

/-- C4: the corpus aggregation maps each selector to the maximum score
observed for it across the folded results, and folding the same result list a
second time leaves the mapping unchanged. -/
theorem C4_max_aggregation :
    (∀ (l : List (String × ℚ)) (s : String),
      (fold_scores [] l).lookup s = maxScore l s)
    ∧ (∀ m l : List (String × ℚ),
      fold_scores (fold_scores m l) l = fold_scores m l) := by
  constructor
  · intro l s
    rw [lookup_fold_scores, List.lookup_nil, maxScore_eq_mergeMax]
  · intro m l
    exact fold_scores_fixed l (fold_scores m l)
      (fun p hp => fold_scores_dominates m l p hp)

/-- Inserting an element dominating a whole list puts it in front. -/
theorem orderedInsert_of_forall (a : String × ℚ) (M : List (String × ℚ))
    (h : ∀ y ∈ M, scoreDesc a y) :
    M.orderedInsert scoreDesc a = a :: M := by
  cases M with
  | nil => rfl
  | cons m t => exact List.orderedInsert_of_le _ _ (h m (List.mem_cons_self m t))

/-- Filtering through an ordered insertion into a sorted list either inserts
the filtered element or leaves the filtered list unchanged. -/
theorem filter_orderedInsert (p : String × ℚ → Bool) (a : String × ℚ)
    (L : List (String × ℚ)) (hL : L.Sorted scoreDesc) :
    (L.orderedInsert scoreDesc a).filter p =
      if p a then (L.filter p).orderedInsert scoreDesc a else L.filter p := by
  induction L with
  | nil =>
    by_cases hpa : p a <;> simp [List.orderedInsert, List.filter_cons, hpa]
  | cons b t ih =>
    have hbt : ∀ y ∈ t, scoreDesc b y := List.rel_of_sorted_cons hL
    have hts : t.Sorted scoreDesc := hL.of_cons
    simp only [List.orderedInsert]
    by_cases hab : scoreDesc a b
    · rw [if_pos hab, List.filter_cons]
      by_cases hpa : p a
      · rw [if_pos hpa, if_pos hpa, orderedInsert_of_forall]
        intro y hy
        rcases List.mem_cons.mp (List.mem_of_mem_filter hy) with rfl | hyt
        · exact hab
        · exact le_trans (hbt y hyt) hab
      · rw [if_neg hpa, if_neg hpa]
    · rw [if_neg hab, List.filter_cons, List.filter_cons]
      by_cases hpa : p a <;> by_cases hpb : p b
      · rw [if_pos hpb, if_pos hpa, if_pos hpb, ih hts, if_pos hpa]
        simp [List.orderedInsert, hab]
      · rw [if_neg hpb, if_pos hpa, if_neg hpb, ih hts, if_pos hpa]
      · rw [if_pos hpb, if_neg hpa, if_pos hpb, ih hts, if_neg hpa]
      · rw [if_neg hpb, if_neg hpa, if_neg hpb, ih hts, if_neg hpa]

/-- Filtering commutes with the stable descending sort. -/
theorem sortDesc_filter_comm (p : String × ℚ → Bool) (l : List (String × ℚ)) :
    sortDesc (l.filter p) = (sortDesc l).filter p := by
  unfold sortDesc
  induction l with
  | nil => rfl
  | cons x t ih =>
    have hR : (List.insertionSort scoreDesc (x :: t)).filter p
        = if p x then
            List.orderedInsert scoreDesc x ((List.insertionSort scoreDesc t).filter p)
          else (List.insertionSort scoreDesc t).filter p := by
      rw [show List.insertionSort scoreDesc (x :: t)
          = List.orderedInsert scoreDesc x (List.insertionSort scoreDesc t) from rfl]
      exact filter_orderedInsert p x _ (List.sorted_insertionSort scoreDesc t)
    rw [hR, List.filter_cons]
    by_cases hp : p x
    · rw [if_pos hp, if_pos hp,
        show List.insertionSort scoreDesc (x :: t.filter p)
          = List.orderedInsert scoreDesc x (List.insertionSort scoreDesc (t.filter p))
          from rfl, ih]
    · rw [if_neg hp, if_neg hp, ih]

/-- C1: the emitted content selector is the comma-and-space join of the top
three aggregated selectors scoring strictly above 5, sorted descending by
score, fewer when fewer qualify, and the empty string when none qualifies. -/
theorem C1_content_selector (files : List (Option (List Elem))) :
    content_selector files = spec_content_selector files
    ∧ ((∀ q ∈ fold_scores [] (scan_files files).content, q.2 ≤ 5) →
        content_selector files = "") := by
  constructor
  · unfold content_selector spec_content_selector analyze_html_files top_selectors
    dsimp only
    rw [sortDesc_filter_comm]
  · intro h
    unfold content_selector analyze_html_files top_selectors
    dsimp only
    have hnil : (fold_scores [] (scan_files files).content).filter
        (fun p => decide (5 < p.2)) = [] := by
      rw [List.filter_eq_nil_iff]
      intro a ha
      simp only [decide_eq_true_eq, not_lt]
      exact h a ha
    rw [hnil]
    rfl

/-- Witness: the empty corpus aggregates no score above 5 and yields the
empty content selector. -/
theorem C1_witness : content_selector [] = "" :=
  (C1_content_selector []).2 (by decide)

/-- Deduplication produces a sublist. -/
theorem dedupeFirst_sublist (seen : List String) (l : List (String × ℚ)) :
    List.Sublist (dedupeFirst seen l) l := by
  induction l generalizing seen with
  | nil => simp [dedupeFirst]
  | cons q t ih =>
    simp only [dedupeFirst]
    split
    · exact (ih seen).cons q
    · exact (ih (q.1 :: seen)).cons₂ q

/-- Deduplication never emits a key it has already seen. -/
theorem dedupeFirst_key_not_mem (seen : List String) (l : List (String × ℚ)) :
    ∀ p ∈ dedupeFirst seen l, p.1 ∉ seen := by
  induction l generalizing seen with
  | nil =>
    intro p hp
    simp [dedupeFirst] at hp
  | cons q t ih =>
    intro p hp
    simp only [dedupeFirst] at hp
    by_cases h : q.1 ∈ seen
    · rw [if_pos h] at hp
      exact ih seen p hp
    · rw [if_neg h] at hp
      rcases List.mem_cons.mp hp with rfl | hp'
      · exact h
      · have hns := ih (q.1 :: seen) p hp'
        exact fun hc => hns (List.mem_cons_of_mem _ hc)

/-- Deduplication emits pairwise distinct keys. -/
theorem dedupeFirst_keys_nodup (seen : List String) (l : List (String × ℚ)) :
    ((dedupeFirst seen l).map (fun p => p.1)).Nodup := by
  induction l generalizing seen with
  | nil => simp [dedupeFirst]
  | cons q t ih =>
    simp only [dedupeFirst]
    by_cases h : q.1 ∈ seen
    · rw [if_pos h]
      exact ih seen
    · rw [if_neg h]
      simp only [List.map_cons, List.nodup_cons]
      refine ⟨?_, ih (q.1 :: seen)⟩
      intro hc
      obtain ⟨p, hp, hk⟩ := List.mem_map.mp hc
      exact (dedupeFirst_key_not_mem _ _ p hp)
        (by rw [hk]; exact List.mem_cons_self _ _)

/-- In a descending list, the kept first occurrence of each key carries a
score at least every score of that key. -/
theorem dedupeFirst_max (seen : List String) (l : List (String × ℚ))
    (hs : l.Pairwise scoreDesc) :
    ∀ p ∈ dedupeFirst seen l, ∀ q ∈ l, q.1 = p.1 → q.2 ≤ p.2 := by
  induction l generalizing seen with
  | nil =>
    intro p hp
    simp [dedupeFirst] at hp
  | cons x t ih =>
    have hx : ∀ y ∈ t, scoreDesc x y := (List.pairwise_cons.mp hs).1
    have ht : t.Pairwise scoreDesc := (List.pairwise_cons.mp hs).2
    intro p hp q hq hkey
    simp only [dedupeFirst] at hp
    by_cases h : x.1 ∈ seen
    · rw [if_pos h] at hp
      rcases List.mem_cons.mp hq with rfl | hq'
      · exact absurd (hkey ▸ h) (dedupeFirst_key_not_mem seen t p hp)
      · exact ih seen ht p hp q hq' hkey
    · rw [if_neg h] at hp
      rcases List.mem_cons.mp hp with rfl | hp'
      · rcases List.mem_cons.mp hq with rfl | hq'
        · exact le_refl _
        · exact hx q hq'
      · rcases List.mem_cons.mp hq with rfl | hq'
        · exact absurd (List.mem_cons.mpr (Or.inl hkey.symm))
            (dedupeFirst_key_not_mem _ t p hp')
        · exact ih (x.1 :: seen) ht p hp' q hq' hkey

/-- Every unseen key of the input survives deduplication. -/
theorem dedupeFirst_covers (seen : List String) (l : List (String × ℚ)) :
    ∀ s : String, (∃ q ∈ l, q.1 = s) → s ∉ seen →
      ∃ p ∈ dedupeFirst seen l, p.1 = s := by
  induction l generalizing seen with
  | nil =>
    rintro s ⟨q, hq, _⟩ _
    cases hq
  | cons x t ih =>
    rintro s ⟨q, hq, hk⟩ hns
    simp only [dedupeFirst]
    by_cases h : x.1 ∈ seen
    · rw [if_pos h]
      rcases List.mem_cons.mp hq with rfl | hq'
      · exact absurd (hk ▸ h) hns
      · exact ih seen s ⟨q, hq', hk⟩ hns
    · rw [if_neg h]
      by_cases hsx : s = x.1
      · exact ⟨x, List.mem_cons_self _ _, hsx.symm⟩
      · rcases List.mem_cons.mp hq with rfl | hq'
        · exact absurd hk (fun hc => hsx hc.symm)
        · obtain ⟨p, hp, hpk⟩ := ih (x.1 :: seen) s ⟨q, hq', hk⟩ (by
            intro hc
            rcases List.mem_cons.mp hc with hc1 | hc2
            · exact hsx hc1
            · exact hns hc2)
          exact ⟨p, List.mem_cons_of_mem _ hp, hpk⟩

/-- C3: every emitted candidate of a page comes from an element with at least
fifty characters of stripped text, and a page whose elements all fall below
the gate produces no candidate at all. -/
theorem C3_threshold_gate (page : List Elem) :
    (∀ p ∈ extract_content_selectors page,
      ∃ e ∈ page, 50 ≤ e.text.length ∧ p = (build_selector e, score_element e))
    ∧ ((∀ e ∈ page, e.text.length < 50) → extract_content_selectors page = []) := by
  constructor
  · intro p hp
    have hp1 : p ∈ sortDesc (raw_candidates page) :=
      (dedupeFirst_sublist [] _).subset hp
    have hp2 : p ∈ raw_candidates page :=
      (List.perm_insertionSort scoreDesc _).subset hp1
    obtain ⟨e, he, heq⟩ := List.mem_map.mp hp2
    have he1 := List.mem_filter.mp he
    have he2 := List.mem_filter.mp he1.1
    exact ⟨e, he2.1, (qualifies_iff e).mp he1.2, heq.symm⟩
  · intro h
    unfold extract_content_selectors
    have hraw : raw_candidates page = [] := by
      unfold raw_candidates
      rw [List.map_eq_nil_iff, List.filter_eq_nil_iff]
      intro e he hq
      have hlen := h e (List.mem_filter.mp he).1
      exact absurd ((qualifies_iff e).mp hq) (Nat.not_le.mpr hlen)
    rw [hraw]
    rfl

/-- Witness: the empty div page yields no candidate, and on the two-element
page the emitted candidate indeed comes from a qualifying element. -/
theorem C3_witness :
    extract_content_selectors [exampleTinyDiv] = []
    ∧ ∃ e ∈ examplePageA, 50 ≤ e.text.length
        ∧ ("div.article", (8 : ℚ)/5) = (build_selector e, score_element e) :=
  ⟨(C3_threshold_gate [exampleTinyDiv]).2 (by decide),
   (C3_threshold_gate examplePageA).1 ("div.article", 8/5) (by decide)⟩

/-- C10: the per-page candidate list carries pairwise distinct selectors, is
sorted descending by score, pairs every emitted selector with the maximum
score of the page elements synthesizing it, and covers every synthesized
selector. -/
theorem C10_per_page (page : List Elem) :
    (((extract_content_selectors page).map (fun p => p.1)).Nodup)
    ∧ ((extract_content_selectors page).Pairwise scoreDesc)
    ∧ (∀ p ∈ extract_content_selectors page,
        p ∈ raw_candidates page
          ∧ ∀ q ∈ raw_candidates page, q.1 = p.1 → q.2 ≤ p.2)
    ∧ (∀ s : String, (∃ q ∈ raw_candidates page, q.1 = s) →
        ∃ p ∈ extract_content_selectors page, p.1 = s) := by
  have hsort : (sortDesc (raw_candidates page)).Pairwise scoreDesc :=
    List.sorted_insertionSort scoreDesc (raw_candidates page)
  have hperm : List.Perm (sortDesc (raw_candidates page)) (raw_candidates page) :=
    List.perm_insertionSort scoreDesc (raw_candidates page)
  refine ⟨dedupeFirst_keys_nodup [] _, ?_, ?_, ?_⟩
  · exact List.Pairwise.sublist (dedupeFirst_sublist [] _) hsort
  · intro p hp
    have hp1 : p ∈ sortDesc (raw_candidates page) :=
      (dedupeFirst_sublist [] _).subset hp
    refine ⟨hperm.subset hp1, ?_⟩
    intro q hq hkey
    exact dedupeFirst_max [] _ hsort p hp q (hperm.symm.subset hq) hkey
  · intro s hex
    obtain ⟨q, hq, hk⟩ := hex
    exact dedupeFirst_covers [] _ s ⟨q, hperm.symm.subset hq, hk⟩ (by simp)

/-- Witness: on the two-element page the emitted pair dominates the lower
same-selector candidate. -/
theorem C10_witness : (39 : ℚ)/25 ≤ 8/5 :=
  (((C10_per_page examplePageA).2.2.1 ("div.article", 8/5) (by decide)).2
    ("div.article", 39/25) (by decide) rfl)

end Html2Md
